import Mathlib

/-!
Verification of the Structural Change meta-feature implementation
(`StructuralChange.hpp`): window-boundary computation, cumulative-sum
acceleration, divergence policies, and the orchestrating `calculate`
routine, shallowly embedded in Lean 4.

Floating-point values are modelled as elements of a linear ordered field
(instantiated at `ℚ` for executable checks and at `ℝ` for the policies
that use `sqrt`/`log`).  Machine indices are modelled as `ℕ`.
-/

namespace StructuralChange

/-- One window-boundary record: the five `int` entries pushed by
`init_window_boundaries` for a given timescale and frame
(`ll`, `i_frame`, `i_frame`, `rr`, status flag). -/
structure WindowBoundary where
  leftStart : ℕ
  leftEnd : ℕ
  rightStart : ℕ
  rightEnd : ℕ
  status : Int
  deriving DecidableEq, Repr

instance : Inhabited WindowBoundary := ⟨⟨0, 0, 0, 0, 0⟩⟩

/-- The boundary record computed by the body of the inner loop of
`StructuralChange::init_window_boundaries` for half-width `w`
(`window_width`), total frame count `N` (`num_frame`) and frame index
`i` (`i_frame`).  `ll = i - w` when `i + 1 > w` else `0`;
`rr = i + w` when `i + w < N` else `N`; the status flag is `0`
(normal) when `2w = rr - ll`, `-1` when `w = rr - i`, `-2` when
`w = i - ll`, and `-3` otherwise. -/
def init_window_boundary (w N i : ℕ) : WindowBoundary :=
  let ll : ℕ := if i + 1 > w then i - w else 0
  let rr : ℕ := if i + w < N then i + w else N
  let status : Int :=
    if 2 * w = rr - ll then 0
    else if w = rr - i then -1
    else if w = i - ll then -2
    else -3
  ⟨ll, i, i, rr, status⟩

/-- The full boundary table of `StructuralChange::init_window_boundaries`:
one list of records per timescale `t < numDim`, with half-width
`window_width = 1 <<< t = 2 ^ t`, one record per frame. -/
def init_window_boundaries (numDim N : ℕ) : List (List WindowBoundary) :=
  (List.range numDim).map (fun t => (List.range N).map (init_window_boundary (2 ^ t) N))

/-- `getD` of a mapped range, the access pattern used throughout. -/
theorem getD_map_range {β : Type} (f : ℕ → β) (d : β) {i n : ℕ} (h : i < n) :
    ((List.range n).map f).getD i d = f i := by
  have hi : i < ((List.range n).map f).length := by simpa using h
  rw [List.getD_eq_getElem _ _ hi]
  simp

/-- C2, tried concretely first. -/
example : init_window_boundary 2 10 1 = ⟨0, 1, 1, 3, -1⟩ := by decide
example : init_window_boundary 2 10 5 = ⟨3, 5, 5, 7, 0⟩ := by decide
example : init_window_boundary 2 10 9 = ⟨7, 9, 9, 10, -2⟩ := by decide
example : init_window_boundary 2 2 1 = ⟨0, 1, 1, 2, -3⟩ := by decide

/-- **C2**: for every timescale `t` (half-width `w = 2^t`), frame count `N`
and frame index `i < N`, the boundary record stored in the table equals
`init_window_boundary (2^t) N i`, whose fields satisfy
`leftStart = max 0 (i - w)` (as integers), `leftEnd = i = rightStart`,
`rightEnd = min N (i + w)`, the chain
`0 ≤ leftStart ≤ leftEnd = i = rightStart ≤ rightEnd ≤ N`, and whose status
is `0` (normal) iff both window sizes equal `w`, `-1` (left-truncated) iff
only the right window has size `w`, `-2` (right-truncated) iff only the
left window has size `w`, and `-3` (both-truncated) otherwise. -/
theorem window_boundary_spec (numDim t N i : ℕ) (ht : t < numDim) (hi : i < N) :
    ((init_window_boundaries numDim N).getD t []).getD i default
        = init_window_boundary (2 ^ t) N i ∧
    (let w := 2 ^ t
     let b := init_window_boundary w N i
     ((b.leftStart : ℤ) = max 0 ((i : ℤ) - w) ∧
      b.leftEnd = i ∧ b.rightStart = i ∧ (b.rightEnd : ℤ) = min (N : ℤ) ((i : ℤ) + w)) ∧
     (b.leftStart ≤ b.leftEnd ∧ b.leftEnd = i ∧ b.rightStart = i ∧
      b.rightEnd ≤ N ∧ i ≤ b.rightEnd) ∧
     (b.status = 0 ↔ (b.leftEnd - b.leftStart = w ∧ b.rightEnd - b.rightStart = w)) ∧
     (b.status = -1 ↔ (b.rightEnd - b.rightStart = w ∧ b.leftEnd - b.leftStart ≠ w)) ∧
     (b.status = -2 ↔ (b.leftEnd - b.leftStart = w ∧ b.rightEnd - b.rightStart ≠ w)) ∧
     (b.status = -3 ↔ (b.leftEnd - b.leftStart ≠ w ∧ b.rightEnd - b.rightStart ≠ w))) := by
  constructor
  · rw [show (init_window_boundaries numDim N).getD t []
        = (List.range N).map (init_window_boundary (2 ^ t) N) from
      getD_map_range _ _ ht]
    exact getD_map_range _ _ hi
  · intro w b
    have hw : 1 ≤ w := Nat.one_le_two_pow
    have hls : b.leftStart = if i + 1 > w then i - w else 0 := rfl
    have hle : b.leftEnd = i := rfl
    have hrs : b.rightStart = i := rfl
    have hre : b.rightEnd = if i + w < N then i + w else N := rfl
    have hst : b.status =
        (if 2 * w = (if i + w < N then i + w else N) - (if i + 1 > w then i - w else 0) then 0
         else if w = (if i + w < N then i + w else N) - i then -1
         else if w = i - (if i + 1 > w then i - w else 0) then -2
         else -3) := rfl
    rw [hls, hle, hrs, hre, hst]
    clear hls hle hrs hre hst
    clear_value b w
    clear b
    by_cases hA : i + 1 > w <;> by_cases hB : i + w < N <;>
      simp only [hA, hB, if_true, if_false, ite_true, ite_false] <;>
      split_ifs <;>
      refine ⟨⟨?_, ?_, ?_, ?_⟩, ⟨?_, ?_, ?_, ?_, ?_⟩, ?_, ?_, ?_, ?_⟩ <;>
      first
        | trivial
        | omega
        | (simp only [false_iff, iff_false, true_iff, iff_true, not_and, not_not, ne_eq]; omega)

/-- Witness for C2 at `t = 1`, `N = 10`, `i = 1`. -/
theorem window_boundary_spec_witness :
    ((init_window_boundaries 2 10).getD 1 []).getD 1 default
        = init_window_boundary (2 ^ 1) 10 1 ∧
    (let w := 2 ^ 1
     let b := init_window_boundary w 10 1
     ((b.leftStart : ℤ) = max 0 ((1 : ℤ) - w) ∧
      b.leftEnd = 1 ∧ b.rightStart = 1 ∧ (b.rightEnd : ℤ) = min (10 : ℤ) ((1 : ℤ) + w)) ∧
     (b.leftStart ≤ b.leftEnd ∧ b.leftEnd = 1 ∧ b.rightStart = 1 ∧
      b.rightEnd ≤ 10 ∧ 1 ≤ b.rightEnd) ∧
     (b.status = 0 ↔ (b.leftEnd - b.leftStart = w ∧ b.rightEnd - b.rightStart = w)) ∧
     (b.status = -1 ↔ (b.rightEnd - b.rightStart = w ∧ b.leftEnd - b.leftStart ≠ w)) ∧
     (b.status = -2 ↔ (b.leftEnd - b.leftStart = w ∧ b.rightEnd - b.rightStart ≠ w)) ∧
     (b.status = -3 ↔ (b.leftEnd - b.leftStart ≠ w ∧ b.rightEnd - b.rightStart ≠ w))) :=
  window_boundary_spec 2 1 10 1 (by decide) (by decide)

section Engine

variable {α : Type} [LinearOrderedField α] [DecidableEq α]

/-- The zero vector `std::vector<float>(num_element)`. -/
def vecZero (D : ℕ) : List α := List.replicate D 0

/-- One step of the accumulation loop of `calculate`: elementwise
`cumulative_vector[j] += input[i_frame][j]` over the `cumulative_vector`
indices. -/
def vecAccum (acc frame : List α) : List α :=
  (List.range acc.length).map (fun j => acc.getD j 0 + frame.getD j 0)

/-- `cumulative_matrix`: an initial all-zero row of length `D`
(`num_element`) followed by the running elementwise sums of the input
frames. -/
def cumulative_matrix (D : ℕ) (input : List (List α)) : List (List α) :=
  input.scanl vecAccum (vecZero D)

/-- The window mean computed inside the normal case of `calculate`:
`(cumulative_matrix[hi][j] - cumulative_matrix[lo][j]) / cnt` for each
feature dimension `j < D` (`cnt` is `current_num_frames`). -/
def windowMean (cum : List (List α)) (hi lo cnt D : ℕ) : List α :=
  (List.range D).map
    (fun j => ((cum.getD hi []).getD j 0 - (cum.getD lo []).getD j 0) / (cnt : α))

/-- The value the first per-frame loop of `calculate` writes into
`change_matrix[i_boundary][i_timescale]`: the divergence of the two
window means when the status is `0`, the `LEFT` sentinel `-1.0` when it
is `-1`, the `RIGHT` sentinel `-2.0` when it is `-2`, and `0.0`
otherwise. -/
def rawValue (div : List α → List α → α) (cum : List (List α)) (D : ℕ)
    (b : WindowBoundary) : α :=
  if b.status = 0 then
    div (windowMean cum b.leftEnd b.leftStart (b.leftEnd - b.leftStart) D)
      (windowMean cum b.rightEnd b.rightStart (b.leftEnd - b.leftStart) D)
  else if b.status = -1 then -1
  else if b.status = -2 then -2
  else 0

/-- The window-boundary records of one timescale. -/
def boundariesFor (w N : ℕ) : List WindowBoundary :=
  (List.range N).map (init_window_boundary w N)

/-- The pre-substitution column of one timescale (the contents of
`change_matrix[.][i_timescale]` after the first per-frame loop). -/
def rawsFor (div : List α → List α → α) (cum : List (List α)) (D w N : ℕ) : List α :=
  (boundariesFor w N).map (rawValue div cum D)

/-- The stored values at the normal-status frames of one timescale: the
summands accumulated into `mean_div` (with `count_valid` their count). -/
def normalVals (bs : List WindowBoundary) (raws : List α) : List α :=
  ((bs.zip raws).filter (fun p => p.1.status == 0)).map Prod.snd

/-- `mean_div` after the first per-frame loop: sum of the normal-status
values divided by `count_valid` when `count_valid > 0`, `0` otherwise. -/
def meanDiv (bs : List WindowBoundary) (raws : List α) : α :=
  if (normalVals bs raws).length = 0 then 0
  else (normalVals bs raws).sum / ((normalVals bs raws).length : α)

/-- The substitution applied by the second per-frame loop of `calculate`:
a slot holding exactly the `RIGHT` sentinel `-2.0` becomes `3 * mean_div`,
then a slot holding exactly the `LEFT` sentinel `-1.0` becomes
`(-1) * mean_div`; all other slots are untouched. -/
def substitute (md v : α) : α :=
  if v = -2 then 3 * md else if v = -1 then (-1) * md else v

/-- The final output column of one timescale after sentinel
substitution. -/
def timescaleColumn (div : List α → List α → α) (cum : List (List α)) (D w N : ℕ) : List α :=
  (rawsFor div cum D w N).map
    (substitute (meanDiv (boundariesFor w N) (rawsFor div cum D w N)))

/-- `StructuralChange::calculate` for an engine constructed with
`num_dim = numDim` timescales: empty input gives empty output;
otherwise each output frame `i` holds, at dimension `t`, the
substituted value of timescale `t` (half-width `2^t`) at frame `i`. -/
def calculate (numDim : ℕ) (div : List α → List α → α) (input : List (List α)) :
    List (List α) :=
  if input.length = 0 then []
  else
    (List.range input.length).map (fun i =>
      (List.range numDim).map (fun t =>
        (timescaleColumn div (cumulative_matrix (input.headD []).length input)
          (input.headD []).length (2 ^ t) input.length).getD i 0))

end Engine

/-- A vector reconstructs from its `getD` values. -/
theorem map_range_getD {α : Type} [Zero α] (v : List α) :
    (List.range v.length).map (fun j => v.getD j 0) = v := by
  apply List.ext_getElem
  · simp
  · intro i h1 h2
    simp [List.getD, List.getElem?_eq_getElem h2]

/-- The elementwise sum of a list of frames over `D` feature dimensions
(the quantity the specification describes for cumulative rows). -/
def frameSum {α : Type} [LinearOrderedField α] (D : ℕ) (frames : List (List α)) : List α :=
  (List.range D).map (fun j => (frames.map (fun f => f.getD j 0)).sum)

/-- Elementwise difference of two equal-length vectors. -/
def vecSub {α : Type} [LinearOrderedField α] (v w : List α) : List α :=
  (List.range v.length).map (fun j => v.getD j 0 - w.getD j 0)

/-- Any entry of the zero vector reads as `0`. -/
theorem vecZero_getD {α : Type} [LinearOrderedField α] (D j : ℕ) :
    (vecZero (α := α) D).getD j 0 = 0 := by
  rcases lt_or_ge j D with h | h
  · rw [vecZero, List.getD_eq_getElem _ _ (by simpa using h)]
    simp
  · rw [List.getD_eq_default _ _ (by simpa [vecZero] using h)]

/-- Row `k` of the accumulation scan: the initial row plus the elementwise
sum of the first `k` frames. -/
theorem scanl_vecAccum_getD {α : Type} [LinearOrderedField α] (acc : List α)
    (frames : List (List α)) (k : ℕ) (hk : k ≤ frames.length) :
    (frames.scanl vecAccum acc).getD k []
      = (List.range acc.length).map
          (fun j => acc.getD j 0 + ((frames.take k).map (fun f => f.getD j 0)).sum) := by
  induction frames generalizing acc k with
  | nil =>
    obtain rfl : k = 0 := Nat.le_zero.mp hk
    rw [List.scanl, List.getD_cons_zero]
    simp only [List.take_zero, List.map_nil, List.sum_nil, add_zero]
    exact (map_range_getD acc).symm
  | cons fr rest ih =>
    cases k with
    | zero =>
      rw [List.scanl, List.getD_cons_zero]
      simp only [List.take_zero, List.map_nil, List.sum_nil, add_zero]
      exact (map_range_getD acc).symm
    | succ k =>
      rw [List.scanl, List.getD_cons_succ, ih (vecAccum acc fr) k (by simpa using hk)]
      have hlen : (vecAccum acc fr).length = acc.length := by simp [vecAccum]
      rw [hlen]
      apply List.map_congr_left
      intro j hj
      rw [List.mem_range] at hj
      rw [show (vecAccum acc fr).getD j 0 = acc.getD j 0 + fr.getD j 0 from
        getD_map_range _ _ hj]
      rw [List.take_succ_cons, List.map_cons, List.sum_cons]
      ring

/-- **C5**: the cumulative matrix has `N + 1` rows, row `0` is the zero
vector, row `k` is the elementwise sum of input frames `[0, k)`, and for
`j ≤ k ≤ N` row `k` minus row `j` is the elementwise sum of input frames
`[j, k)`. -/
theorem cumulative_matrix_spec {α : Type} [LinearOrderedField α] (D : ℕ)
    (input : List (List α)) (hD : ∀ f ∈ input, f.length = D) :
    (cumulative_matrix D input).length = input.length + 1 ∧
    (cumulative_matrix D input).getD 0 [] = vecZero D ∧
    (∀ k, k ≤ input.length →
      (cumulative_matrix D input).getD k [] = frameSum D (input.take k)) ∧
    (∀ j k, j ≤ k → k ≤ input.length →
      vecSub ((cumulative_matrix D input).getD k []) ((cumulative_matrix D input).getD j [])
        = frameSum D ((input.drop j).take (k - j))) := by
  have hrow : ∀ k, k ≤ input.length →
      (cumulative_matrix D input).getD k [] = frameSum D (input.take k) := by
    intro k hk
    rw [cumulative_matrix, scanl_vecAccum_getD _ _ _ hk, frameSum]
    rw [show (vecZero (α := α) D).length = D from by simp [vecZero]]
    apply List.map_congr_left
    intro j _
    rw [vecZero_getD, zero_add]
  refine ⟨by simp [cumulative_matrix, List.length_scanl], ?_, hrow, ?_⟩
  · rcases input with _ | ⟨fr, rest⟩ <;> rfl
  · intro j k hjk hk
    rw [hrow k hk, hrow j (le_trans hjk hk), vecSub]
    rw [show (frameSum (α := α) D (input.take k)).length = D from by simp [frameSum]]
    conv_rhs => rw [frameSum]
    apply List.map_congr_left
    intro idx hidx
    rw [List.mem_range] at hidx
    rw [show (frameSum (α := α) D (input.take k)).getD idx 0
        = ((input.take k).map (fun f => f.getD idx 0)).sum from getD_map_range _ _ hidx]
    rw [show (frameSum (α := α) D (input.take j)).getD idx 0
        = ((input.take j).map (fun f => f.getD idx 0)).sum from getD_map_range _ _ hidx]
    rw [show input.take k = input.take j ++ (input.drop j).take (k - j) from by
      rw [← List.take_add, Nat.add_sub_cancel' hjk]]
    rw [List.map_append, List.sum_append]
    ring

/-- Witness for C5 at `D = 1`, `input = [[1], [2]]`. -/
theorem cumulative_matrix_spec_witness :
    (cumulative_matrix 1 [[(1 : ℚ)], [2]]).length = 2 + 1 ∧
    (cumulative_matrix 1 [[(1 : ℚ)], [2]]).getD 0 [] = vecZero 1 ∧
    (∀ k, k ≤ 2 →
      (cumulative_matrix 1 [[(1 : ℚ)], [2]]).getD k [] = frameSum 1 ([[(1 : ℚ)], [2]].take k)) ∧
    (∀ j k, j ≤ k → k ≤ 2 →
      vecSub ((cumulative_matrix 1 [[(1 : ℚ)], [2]]).getD k [])
          ((cumulative_matrix 1 [[(1 : ℚ)], [2]]).getD j [])
        = frameSum 1 (([[(1 : ℚ)], [2]].drop j).take (k - j))) :=
  cumulative_matrix_spec 1 [[(1 : ℚ)], [2]] (by intro f hf; simp at hf; rcases hf with rfl | rfl <;> rfl)

/-- **C4**: the output of `calculate` has one frame per input frame, each
output frame has dimensionality `numDim`, and the empty input yields the
empty output. -/
theorem calculate_shape {α : Type} [LinearOrderedField α] [DecidableEq α] (numDim : ℕ)
    (div : List α → List α → α) (input : List (List α)) :
    (calculate numDim div input).length = input.length ∧
    (∀ out ∈ calculate numDim div input, out.length = numDim) ∧
    calculate numDim div ([] : List (List α)) = [] := by
  refine ⟨?_, ?_, rfl⟩
  · by_cases h : input.length = 0
    · simp [calculate, h, List.length_eq_zero.mp h]
    · simp [calculate, h]
  · intro out hout
    by_cases h : input.length = 0
    · simp [calculate, h] at hout
    · rw [calculate, if_neg h] at hout
      rw [List.mem_map] at hout
      obtain ⟨i, _, rfl⟩ := hout
      simp

/-- Witness for C4 at `numDim = 2`, a one-frame rational input, and a
constant divergence policy. -/
theorem calculate_shape_witness :
    (calculate 2 (fun _ _ => (0 : ℚ)) [[(7 : ℚ)]]).length = 1 ∧
    (∀ out ∈ calculate 2 (fun _ _ => (0 : ℚ)) [[(7 : ℚ)]], out.length = 2) ∧
    calculate 2 (fun _ _ => (0 : ℚ)) ([] : List (List ℚ)) = [] :=
  calculate_shape 2 (fun _ _ => (0 : ℚ)) [[(7 : ℚ)]]

section EngineLemmas

variable {α : Type} [LinearOrderedField α] [DecidableEq α]

/-- Access to one slot of the output of `calculate`. -/
theorem calculate_getD (numDim : ℕ) (div : List α → List α → α) (input : List (List α))
    (i t : ℕ) (hi : i < input.length) (ht : t < numDim) :
    ((calculate numDim div input).getD i []).getD t 0
      = (timescaleColumn div (cumulative_matrix (input.headD []).length input)
          (input.headD []).length (2 ^ t) input.length).getD i 0 := by
  rw [calculate, if_neg (by omega)]
  rw [getD_map_range _ _ hi]
  exact getD_map_range _ _ ht

/-- One slot of a timescale column: the substituted raw value at that
frame. -/
theorem timescaleColumn_getD (div : List α → List α → α) (cum : List (List α))
    (D w N i : ℕ) (hi : i < N) :
    (timescaleColumn div cum D w N).getD i 0
      = substitute (meanDiv (boundariesFor w N) (rawsFor div cum D w N))
          (rawValue div cum D (init_window_boundary w N i)) := by
  conv_lhs => rw [timescaleColumn, rawsFor, boundariesFor, List.map_map, List.map_map]
  exact getD_map_range _ _ hi

/-- The normal-status divergence values of one timescale, as the
specification phrases them: the divergence of the left and right window
means at each frame whose boundary status is normal. -/
def normalDivergences (div : List α → List α → α) (cum : List (List α)) (D w N : ℕ) :
    List α :=
  ((List.range N).filter (fun idx => (init_window_boundary w N idx).status == 0)).map
    (fun idx =>
      div (windowMean cum (init_window_boundary w N idx).leftEnd
            (init_window_boundary w N idx).leftStart
            ((init_window_boundary w N idx).leftEnd - (init_window_boundary w N idx).leftStart) D)
          (windowMean cum (init_window_boundary w N idx).rightEnd
            (init_window_boundary w N idx).rightStart
            ((init_window_boundary w N idx).leftEnd - (init_window_boundary w N idx).leftStart) D))

/-- The per-timescale mean divergence as the specification phrases it:
the arithmetic mean of the normal-status divergence values, `0` when
there are none. -/
def specMeanDiv (div : List α → List α → α) (cum : List (List α)) (D w N : ℕ) : α :=
  if (normalDivergences div cum D w N).length = 0 then 0
  else (normalDivergences div cum D w N).sum / ((normalDivergences div cum D w N).length : α)

/-- Zipping a list with its own image collapses to a single map. -/
theorem zip_self_map {β γ : Type} (f : β → γ) (l : List β) :
    l.zip (l.map f) = l.map (fun b => (b, f b)) := by
  induction l with
  | nil => rfl
  | cons b rest ih => simp [ih]

/-- `normalVals` over a raw column produced by mapping a value function
over the boundaries is the filtered map of that function. -/
theorem normalVals_map (f : WindowBoundary → α) (bs : List WindowBoundary) :
    normalVals bs (bs.map f) = (bs.filter (fun b => b.status == 0)).map f := by
  rw [normalVals, zip_self_map, List.filter_map, List.map_map]
  rfl

/-- The values accumulated into `mean_div` by the engine are exactly the
specification's normal-status divergence values. -/
theorem normalVals_eq_normalDivergences (div : List α → List α → α) (cum : List (List α))
    (D w N : ℕ) :
    normalVals (boundariesFor w N) (rawsFor div cum D w N)
      = normalDivergences div cum D w N := by
  rw [rawsFor, normalVals_map, boundariesFor, List.filter_map, List.map_map,
    normalDivergences]
  apply List.map_congr_left
  intro idx hidx
  rw [List.mem_filter] at hidx
  have hstatus : (init_window_boundary w N idx).status = 0 := by
    have := hidx.2
    simpa [Function.comp] using this
  simp only [Function.comp_apply, rawValue, hstatus, if_pos]

/-- The engine's `mean_div` equals the specification's mean of
normal-status divergences. -/
theorem meanDiv_eq_specMeanDiv (div : List α → List α → α) (cum : List (List α))
    (D w N : ℕ) :
    meanDiv (boundariesFor w N) (rawsFor div cum D w N) = specMeanDiv div cum D w N := by
  rw [meanDiv, specMeanDiv, normalVals_eq_normalDivergences]

/-- **C3**: at every timescale `t`, a left-truncated frame's output slot
ends as `(-1) * meanDiv` and a right-truncated frame's output slot ends
as `3 * meanDiv`, where `meanDiv` is the arithmetic mean of the
divergence values computed at that timescale's normal-status frames
(`0` when there are none). -/
theorem edge_substitution (numDim : ℕ) (div : List α → List α → α)
    (input : List (List α)) (t i : ℕ) (ht : t < numDim) (hi : i < input.length) :
    ((init_window_boundary (2 ^ t) input.length i).status = -1 →
      ((calculate numDim div input).getD i []).getD t 0
        = (-1) * specMeanDiv div (cumulative_matrix (input.headD []).length input)
            (input.headD []).length (2 ^ t) input.length) ∧
    ((init_window_boundary (2 ^ t) input.length i).status = -2 →
      ((calculate numDim div input).getD i []).getD t 0
        = 3 * specMeanDiv div (cumulative_matrix (input.headD []).length input)
            (input.headD []).length (2 ^ t) input.length) := by
  rw [calculate_getD numDim div input i t hi ht,
    timescaleColumn_getD div _ _ (2 ^ t) input.length i hi,
    meanDiv_eq_specMeanDiv]
  constructor
  · intro hs
    rw [rawValue, if_neg (by rw [hs]; decide), if_pos hs, substitute,
      if_neg (by norm_num), if_pos rfl]
  · intro hs
    rw [rawValue, if_neg (by rw [hs]; decide), if_neg (by rw [hs]; decide), if_pos hs,
      substitute, if_pos rfl]

/-- Witness for C3: one-dimensional frames `[[1], [2]]`, one timescale,
constant divergence `5`; frame `0` is left-truncated and frame `1` is the
only normal frame, so `meanDiv = 5` and the output slot of frame `0` is
`-5`. -/
theorem edge_substitution_witness :
    (init_window_boundary (2 ^ 0) 2 0).status = -1 ∧
    ((calculate 1 (fun _ _ => (5 : ℚ)) [[1], [2]]).getD 0 []).getD 0 0
      = (-1) * specMeanDiv (fun _ _ => (5 : ℚ)) (cumulative_matrix 1 [[1], [2]]) 1 (2 ^ 0) 2 :=
  ⟨by decide,
    (edge_substitution 1 (fun _ _ => (5 : ℚ)) [[1], [2]] 0 0 (by decide) (by decide)).1
      (by decide)⟩

/-- The divergence value the policy computes at a normal-status frame:
the divergence of the left and right window means. -/
def normalValueAt (div : List α → List α → α) (cum : List (List α)) (D : ℕ)
    (b : WindowBoundary) : α :=
  div (windowMean cum b.leftEnd b.leftStart (b.leftEnd - b.leftStart) D)
    (windowMean cum b.rightEnd b.rightStart (b.leftEnd - b.leftStart) D)

/-- Amended C10: a normal-status frame's final output equals the
divergence policy's computed value whenever that value is not exactly
`-1.0` and not exactly `-2.0`; values equal to a sentinel are rewritten
by the substitution pass (to `(-1) * meanDiv`, resp. `3 * meanDiv`),
which may or may not coincide with the computed value. -/
theorem normal_value_preserved (numDim : ℕ) (div : List α → List α → α)
    (input : List (List α)) (t i : ℕ) (ht : t < numDim) (hi : i < input.length)
    (hs : (init_window_boundary (2 ^ t) input.length i).status = 0)
    (hv2 : normalValueAt div (cumulative_matrix (input.headD []).length input)
        (input.headD []).length (init_window_boundary (2 ^ t) input.length i) ≠ -2)
    (hv1 : normalValueAt div (cumulative_matrix (input.headD []).length input)
        (input.headD []).length (init_window_boundary (2 ^ t) input.length i) ≠ -1) :
    ((calculate numDim div input).getD i []).getD t 0
      = normalValueAt div (cumulative_matrix (input.headD []).length input)
          (input.headD []).length (init_window_boundary (2 ^ t) input.length i) := by
  rw [calculate_getD numDim div input i t hi ht,
    timescaleColumn_getD div _ _ (2 ^ t) input.length i hi]
  rw [show rawValue div (cumulative_matrix (input.headD []).length input)
        (input.headD []).length (init_window_boundary (2 ^ t) input.length i)
      = normalValueAt div (cumulative_matrix (input.headD []).length input)
        (input.headD []).length (init_window_boundary (2 ^ t) input.length i) from by
    rw [rawValue, if_pos hs]; rfl]
  rw [substitute, if_neg hv2, if_neg hv1]

/-- Witness for the amended C10: constant divergence `7` on `[[1], [2]]`;
frame `1` has normal status and its output slot keeps the computed
value `7`. -/
theorem normal_value_preserved_witness :
    (init_window_boundary (2 ^ 0) 2 1).status = 0 ∧
    ((calculate 1 (fun _ _ => (7 : ℚ)) [[1], [2]]).getD 1 []).getD 0 0
      = normalValueAt (fun _ _ => (7 : ℚ)) (cumulative_matrix 1 [[1], [2]]) 1
          (init_window_boundary (2 ^ 0) 2 1) :=
  ⟨by decide,
    normal_value_preserved 1 (fun _ _ => (7 : ℚ)) [[1], [2]] 0 1 (by decide) (by decide)
      (by decide) (by decide) (by decide)⟩

/-- Counterexample to C10 as stated: with the divergence policy that
returns `-1` on equal window means and `5` otherwise, on input
`[[0], [0], [4], [4]]` with one timescale, frame `1` has normal status,
its computed divergence value is exactly `-1.0`, and its final output
nevertheless equals that computed value (`meanDiv = 1`, so the sentinel
substitution writes `(-1) * 1 = -1` back): the final output can equal
the computed value even when that value is exactly `-1.0`. -/
theorem sentinel_collision_counterexample :
    (init_window_boundary (2 ^ 0) 4 1).status = 0 ∧
    normalValueAt (fun x y => if x = y then (-1 : ℚ) else 5)
        (cumulative_matrix 1 [[0], [0], [4], [4]]) 1 (init_window_boundary (2 ^ 0) 4 1)
      = -1 ∧
    ((calculate 1 (fun x y => if x = y then (-1 : ℚ) else 5) [[0], [0], [4], [4]]).getD 1
        []).getD 0 0
      = -1 := by
  have hcum : cumulative_matrix 1 ([[0], [0], [4], [4]] : List (List ℚ))
      = [[0], [0], [0], [4], [8]] := by
    simp only [cumulative_matrix, List.scanl, vecAccum, vecZero, List.replicate,
      List.length_cons, List.length_nil, List.range_succ, List.range_zero, List.map_append,
      List.map_cons, List.map_nil, List.nil_append, List.getD_cons_zero, List.cons_append]
    norm_num
  have hmA : windowMean ([[0], [0], [0], [4], [8]] : List (List ℚ)) 1 0 1 1 = [0] := by
    norm_num [windowMean, List.range_succ, List.range_zero]
  have hmB : windowMean ([[0], [0], [0], [4], [8]] : List (List ℚ)) 2 1 1 1 = [0] := by
    norm_num [windowMean, List.range_succ, List.range_zero]
  have hmC : windowMean ([[0], [0], [0], [4], [8]] : List (List ℚ)) 3 2 1 1 = [4] := by
    norm_num [windowMean, List.range_succ, List.range_zero]
  have hmD : windowMean ([[0], [0], [0], [4], [8]] : List (List ℚ)) 4 3 1 1 = [4] := by
    norm_num [windowMean, List.range_succ, List.range_zero]
  have hb1 : init_window_boundary 1 4 1 = ⟨0, 1, 1, 2, 0⟩ := by decide
  have hb2 : init_window_boundary 1 4 2 = ⟨1, 2, 2, 3, 0⟩ := by decide
  have hb3 : init_window_boundary 1 4 3 = ⟨2, 3, 3, 4, 0⟩ := by decide
  have hval : normalValueAt (fun x y => if x = y then (-1 : ℚ) else 5)
      (cumulative_matrix 1 [[0], [0], [4], [4]]) 1 (init_window_boundary 1 4 1) = -1 := by
    rw [hb1]
    simp only [normalValueAt, hcum]
    norm_num
    rw [hmA, hmB]
  have hnd : normalDivergences (fun x y => if x = y then (-1 : ℚ) else 5)
      (cumulative_matrix 1 [[0], [0], [4], [4]]) 1 1 4 = [-1, 5, -1] := by
    rw [normalDivergences,
      show (List.range 4).filter (fun idx => (init_window_boundary 1 4 idx).status == 0)
        = [1, 2, 3] from by decide]
    rw [List.map_cons, List.map_cons, List.map_cons, List.map_nil, hb1, hb2, hb3, hcum]
    norm_num
    rw [hmA, hmB, hmC, hmD]
    norm_num
  have hmd : specMeanDiv (fun x y => if x = y then (-1 : ℚ) else 5)
      (cumulative_matrix 1 [[0], [0], [4], [4]]) 1 1 4 = 1 := by
    rw [specMeanDiv, hnd]
    norm_num
  refine ⟨by decide, ?_, ?_⟩
  · norm_num
    exact hval
  · have hcalc : ((calculate 1 (fun x y => if x = y then (-1 : ℚ) else 5)
          [[0], [0], [4], [4]]).getD 1 []).getD 0 0
        = (timescaleColumn (fun x y => if x = y then (-1 : ℚ) else 5)
            (cumulative_matrix 1 [[0], [0], [4], [4]]) 1 1 4).getD 1 0 := by
      rw [calculate_getD 1 _ [[0], [0], [4], [4]] 1 0 (by norm_num) (by norm_num)]
      norm_num
    rw [hcalc,
      timescaleColumn_getD (fun x y => if x = y then (-1 : ℚ) else 5)
        (cumulative_matrix 1 [[0], [0], [4], [4]]) 1 1 4 1 (by norm_num)]
    rw [meanDiv_eq_specMeanDiv, hmd]
    rw [show rawValue (fun x y => if x = y then (-1 : ℚ) else 5)
          (cumulative_matrix 1 [[0], [0], [4], [4]]) 1 (init_window_boundary 1 4 1)
        = normalValueAt (fun x y => if x = y then (-1 : ℚ) else 5)
          (cumulative_matrix 1 [[0], [0], [4], [4]]) 1 (init_window_boundary 1 4 1) from by
      rw [rawValue, if_pos (by rw [hb1])]
      rfl]
    rw [hval, substitute]
    norm_num

end EngineLemmas

/-- `EuclideanDivergencePolicy::operator()`: the square root of the sum of
squared componentwise differences, summed over the indices of `a`. -/
noncomputable def EuclideanDivergencePolicy (a b : List ℝ) : ℝ :=
  Real.sqrt (((List.range a.length).map
    (fun i => (a.getD i 0 - b.getD i 0) * (a.getD i 0 - b.getD i 0))).sum)

/-- Euclidean divergence of the concrete one-dimensional windows `[1]`,
`[1]`. -/
theorem euclid_one_one : EuclideanDivergencePolicy [1] [1] = 0 := by
  norm_num [EuclideanDivergencePolicy, List.range_succ, Real.sqrt_zero]

/-- Euclidean divergence of `[1]` and `[5]`. -/
theorem euclid_one_five : EuclideanDivergencePolicy [1] [5] = 4 := by
  norm_num [EuclideanDivergencePolicy, List.range_succ]
  rw [show (16 : ℝ) = 4 ^ 2 from by norm_num, Real.sqrt_sq (by norm_num : (0 : ℝ) ≤ 4)]

/-- Euclidean divergence of `[5]` and `[5]`. -/
theorem euclid_five_five : EuclideanDivergencePolicy [5] [5] = 0 := by
  norm_num [EuclideanDivergencePolicy, List.range_succ, Real.sqrt_zero]

/-- Cumulative matrix of the concrete scenario input `[1, 1, 5, 5]`. -/
theorem cum_scenario : cumulative_matrix 1 ([[1], [1], [5], [5]] : List (List ℝ))
    = [[0], [1], [2], [7], [12]] := by
  simp only [cumulative_matrix, List.scanl, vecAccum, vecZero, List.replicate,
    List.length_cons, List.length_nil, List.range_succ, List.range_zero, List.map_append,
    List.map_cons, List.map_nil, List.nil_append, List.getD_cons_zero, List.cons_append]
  norm_num

/-- Window means of the concrete scenario. -/
theorem wm_scenario :
    windowMean ([[0], [1], [2], [7], [12]] : List (List ℝ)) 1 0 1 1 = [1] ∧
    windowMean ([[0], [1], [2], [7], [12]] : List (List ℝ)) 2 1 1 1 = [1] ∧
    windowMean ([[0], [1], [2], [7], [12]] : List (List ℝ)) 3 2 1 1 = [5] ∧
    windowMean ([[0], [1], [2], [7], [12]] : List (List ℝ)) 4 3 1 1 = [5] := by
  refine ⟨?_, ?_, ?_, ?_⟩ <;> norm_num [windowMean, List.range_succ, List.range_zero]

/-- The boundary records of the scenario (`w = 1`, `N = 4`). -/
theorem bs_scenario : boundariesFor 1 4
    = [⟨0, 0, 0, 1, -1⟩, ⟨0, 1, 1, 2, 0⟩, ⟨1, 2, 2, 3, 0⟩, ⟨2, 3, 3, 4, 0⟩] := by
  decide

/-- The raw (pre-substitution) column of the scenario: the `LEFT` sentinel
at frame `0` and the Euclidean divergences `0, 4, 0` at frames `1`–`3`. -/
theorem raws_scenario :
    rawsFor EuclideanDivergencePolicy (cumulative_matrix 1 [[1], [1], [5], [5]]) 1 1 4
      = [-1, 0, 4, 0] := by
  rw [rawsFor, bs_scenario, cum_scenario]
  simp only [List.map_cons, List.map_nil, rawValue]
  norm_num
  rw [wm_scenario.1, wm_scenario.2.1, wm_scenario.2.2.1, wm_scenario.2.2.2]
  rw [euclid_one_one, euclid_one_five, euclid_five_five]
  norm_num

/-- The scenario's `mean_div`: `(0 + 4 + 0) / 3 = 4/3`. -/
theorem md_scenario :
    meanDiv (boundariesFor 1 4)
        (rawsFor EuclideanDivergencePolicy (cumulative_matrix 1 [[1], [1], [5], [5]]) 1 1 4)
      = 4 / 3 := by
  rw [raws_scenario, bs_scenario, meanDiv, normalVals]
  norm_num [List.zip_cons_cons, List.filter_cons, List.sum_cons]

/-- The full evaluation of `calculate` on the scenario. -/
theorem calculate_scenario :
    calculate 1 EuclideanDivergencePolicy ([[1], [1], [5], [5]] : List (List ℝ))
      = [[-(4 / 3)], [0], [4], [0]] := by
  have hcol : timescaleColumn EuclideanDivergencePolicy
      (cumulative_matrix 1 [[1], [1], [5], [5]]) 1 1 4 = [-(4 / 3), 0, 4, 0] := by
    rw [timescaleColumn, md_scenario, raws_scenario]
    simp only [List.map_cons, List.map_nil, substitute]
    norm_num
  rw [calculate, if_neg (by norm_num)]
  have h1 : (([[1], [1], [5], [5]] : List (List ℝ)).headD []).length = 1 := by norm_num
  rw [show ([[1], [1], [5], [5]] : List (List ℝ)).length = 4 from by norm_num]
  simp only [h1, pow_zero, List.range_succ, List.range_zero, List.nil_append,
    List.cons_append, List.map_cons, List.map_nil, List.map_append]
  rw [hcol]
  norm_num

/-- **C1 (amended)**: on the input `[1, 1, 5, 5]` with one timescale
(half-width `1`) and the Euclidean policy, the right window of frame `i`
is frames `[i, i + w)` (it contains frame `i` itself), so frame `0` is
left-truncated (empty left window) and receives the substitution
`(-1) * meanDiv`, frames `1`, `2`, `3` are normal with divergences
`0`, `4`, `0`, `meanDiv = 4/3`, and `calculate` produces
`[-4/3, 0, 4, 0]`. -/
theorem calculate_euclidean_scenario :
    (boundariesFor 1 4).map WindowBoundary.status = [-1, 0, 0, 0] ∧
    normalDivergences EuclideanDivergencePolicy (cumulative_matrix 1 [[1], [1], [5], [5]])
        1 1 4 = [0, 4, 0] ∧
    specMeanDiv EuclideanDivergencePolicy (cumulative_matrix 1 [[1], [1], [5], [5]]) 1 1 4
      = 4 / 3 ∧
    calculate 1 EuclideanDivergencePolicy ([[1], [1], [5], [5]] : List (List ℝ))
      = [[-(4 / 3)], [0], [4], [0]] := by
  have hnd : normalDivergences EuclideanDivergencePolicy
      (cumulative_matrix 1 [[1], [1], [5], [5]]) 1 1 4 = [0, 4, 0] := by
    rw [← normalVals_eq_normalDivergences, raws_scenario, bs_scenario, normalVals]
    norm_num [List.zip_cons_cons, List.filter_cons]
  refine ⟨by decide, hnd, ?_, calculate_scenario⟩
  rw [specMeanDiv, hnd]
  norm_num

/-- Counterexample to C1 as stated: `calculate` does not produce
`[12, 4, 4, -4]` on the scenario input (it produces `[-4/3, 0, 4, 0]`:
the spec's scenario mislabels frame `0` as right-truncated and shifts
the right windows by one frame). -/
theorem calculate_euclidean_scenario_counterexample :
    calculate 1 EuclideanDivergencePolicy ([[1], [1], [5], [5]] : List (List ℝ))
      ≠ [[12], [4], [4], [-4]] := by
  rw [calculate_scenario]
  intro h
  have h0 := List.head_eq_of_cons_eq h
  have : (-(4 / 3) : ℝ) = 12 := List.head_eq_of_cons_eq h0
  norm_num at this

/-- `MahalanobisDivergencePolicy::operator()`: computes
`sqrt(Σᵢ (Σⱼ invCov[i][j]·(a[j]−b[j])) · (a[i]−b[i]))` over the first
`min(a.size, invCov.size)` dimensions (the constructor stores `invCov`
as `m_inv_cov`; the call clamps `num_element` to its size). -/
noncomputable def MahalanobisDivergencePolicy (invCov : List (List ℝ)) (a b : List ℝ) : ℝ :=
  Real.sqrt (((List.range (if a.length > invCov.length then invCov.length else a.length)).map
    (fun i =>
      ((List.range (if a.length > invCov.length then invCov.length else a.length)).map
        (fun j => (invCov.getD i []).getD j 0 * (a.getD j 0 - b.getD j 0))).sum
        * (a.getD i 0 - b.getD i 0))).sum)

/-- The identity matrix of dimension `n`, as a row-major list of rows. -/
def identityMatrix (n : ℕ) : List (List ℝ) :=
  (List.range n).map (fun i => (List.range n).map (fun j => if i = j then 1 else 0))

/-- Summing `(if i = j then 1 else 0) * g j` over `j < n` picks out `g i`. -/
theorem sum_map_range_ite (n i : ℕ) (hi : i < n) (g : ℕ → ℝ) :
    ((List.range n).map (fun j => (if i = j then (1 : ℝ) else 0) * g j)).sum = g i := by
  induction n with
  | zero => omega
  | succ m ih =>
    rw [List.range_succ, List.map_append, List.sum_append]
    rcases Nat.lt_succ_iff_lt_or_eq.mp hi with h | rfl
    · rw [ih h]
      simp only [List.map_cons, List.map_nil, List.sum_cons, List.sum_nil]
      rw [if_neg (by omega : ¬ i = m)]
      ring
    · have hmap : ((List.range i).map (fun j => (if i = j then (1 : ℝ) else 0) * g j)).sum
          = 0 := by
        apply List.sum_eq_zero
        intro x hx
        rw [List.mem_map] at hx
        obtain ⟨j, hj, rfl⟩ := hx
        rw [List.mem_range] at hj
        rw [if_neg (by omega)]
        ring
      rw [hmap]
      simp

/-- **C8**: the Mahalanobis policy with an identity inverse-covariance
matrix of the common dimension equals the Euclidean policy. -/
theorem mahalanobis_identity_eq_euclidean (a b : List ℝ) (hlen : a.length = b.length) :
    MahalanobisDivergencePolicy (identityMatrix a.length) a b
      = EuclideanDivergencePolicy a b := by
  have hif : (if a.length > (identityMatrix a.length).length
      then (identityMatrix a.length).length else a.length) = a.length := by
    simp [identityMatrix]
  rw [MahalanobisDivergencePolicy, EuclideanDivergencePolicy, hif]
  congr 1
  congr 1
  apply List.map_congr_left
  intro i hi
  rw [List.mem_range] at hi
  rw [show (identityMatrix a.length).getD i []
      = (List.range a.length).map (fun j => if i = j then (1 : ℝ) else 0) from
    getD_map_range _ _ hi]
  have hin : (List.range a.length).map
        (fun j => ((List.range a.length).map (fun j' => if i = j' then (1 : ℝ) else 0)).getD j 0
          * (a.getD j 0 - b.getD j 0))
      = (List.range a.length).map
        (fun j => (if i = j then (1 : ℝ) else 0) * (a.getD j 0 - b.getD j 0)) := by
    apply List.map_congr_left
    intro j hj
    rw [List.mem_range] at hj
    rw [getD_map_range _ _ hj]
  rw [hin, sum_map_range_ite a.length i hi]

/-- Witness for C8 at `a = [3]`, `b = [7]`. -/
theorem mahalanobis_identity_eq_euclidean_witness :
    MahalanobisDivergencePolicy (identityMatrix ([(3 : ℝ)]).length) [(3 : ℝ)] [(7 : ℝ)]
      = EuclideanDivergencePolicy [(3 : ℝ)] [(7 : ℝ)] :=
  mahalanobis_identity_eq_euclidean [(3 : ℝ)] [(7 : ℝ)] rfl

/-- The constancy scan of `CorrelationDivergencePolicy`: a vector is
considered non-constant when some adjacent pair among the first `n`
entries differs (`a[i] != a[i-1]` for some `0 < i < n`). -/
def adjacentDiffers (n : ℕ) (v : List ℝ) : Prop :=
  ∃ i, 0 < i ∧ i < n ∧ v.getD i 0 ≠ v.getD (i - 1) 0

/-- The mean of the first `n` entries of `v` (`a_mean` / `b_mean`; the
code uses `n = a.size` for both vectors). -/
noncomputable def sampleMean (n : ℕ) (v : List ℝ) : ℝ :=
  ((List.range n).map (fun i => v.getD i 0)).sum / n

/-- `above`: the sum of products of mean-shifted entries. -/
noncomputable def corrAbove (a b : List ℝ) : ℝ :=
  ((List.range a.length).map (fun i =>
    (a.getD i 0 - sampleMean a.length a) * (b.getD i 0 - sampleMean a.length b))).sum

/-- `below_a` / `below_b`: the sum of squared mean-shifted entries. -/
noncomputable def corrBelow (n : ℕ) (v : List ℝ) : ℝ :=
  ((List.range n).map (fun i =>
    (v.getD i 0 - sampleMean n v) * (v.getD i 0 - sampleMean n v))).sum

open Classical in
/-- `CorrelationDivergencePolicy::operator()`: `0` when either vector is
constant under the adjacent-pair scan, otherwise
`0.5 + (-0.5 * above / (sqrt(below_a) * sqrt(below_b)))`. -/
noncomputable def CorrelationDivergencePolicy (a b : List ℝ) : ℝ :=
  if adjacentDiffers a.length a ∧ adjacentDiffers a.length b then
    0.5 + (-0.5 * corrAbove a b
      / (Real.sqrt (corrBelow a.length a) * Real.sqrt (corrBelow a.length b)))
  else 0

/-- The Pearson correlation coefficient of `a` and `b` (the quantity `r`
the specification refers to). -/
noncomputable def pearson (a b : List ℝ) : ℝ :=
  corrAbove a b / (Real.sqrt (corrBelow a.length a) * Real.sqrt (corrBelow a.length b))

/-- A list sum over `range n` is the `Finset.range` sum. -/
theorem sum_map_range_eq (n : ℕ) (f : ℕ → ℝ) :
    ((List.range n).map f).sum = ∑ i in Finset.range n, f i := rfl

/-- A vector that is non-constant under the adjacent-pair scan has
positive squared deviation from its mean. -/
theorem corrBelow_pos (n : ℕ) (v : List ℝ) (h : adjacentDiffers n v) :
    0 < corrBelow n v := by
  obtain ⟨i, hi0, hin, hne⟩ := h
  have hex : ∃ j, j < n ∧ v.getD j 0 ≠ sampleMean n v := by
    by_contra hall
    push_neg at hall
    exact hne (by rw [hall i hin, hall (i - 1) (by omega)])
  obtain ⟨j, hj, hjne⟩ := hex
  rw [corrBelow, sum_map_range_eq]
  apply Finset.sum_pos'
  · intro k _
    exact mul_self_nonneg _
  · exact ⟨j, Finset.mem_range.mpr hj, mul_self_pos.mpr (sub_ne_zero.mpr hjne)⟩

/-- Cauchy–Schwarz for the correlation sums. -/
theorem corr_above_sq_le (a b : List ℝ) :
    corrAbove a b * corrAbove a b ≤ corrBelow a.length a * corrBelow a.length b := by
  rw [corrAbove, corrBelow, corrBelow, sum_map_range_eq, sum_map_range_eq, sum_map_range_eq]
  have h := Finset.sum_mul_sq_le_sq_mul_sq (Finset.range a.length)
    (fun i => a.getD i 0 - sampleMean a.length a)
    (fun i => b.getD i 0 - sampleMean a.length b)
  simp only [← pow_two]
  simpa using h

/-- **C6**: the correlation policy returns exactly `0` when either input
is constant under the adjacent-pair scan; otherwise it returns
`0.5 - 0.5 r` for `r` the Pearson correlation of `a` and `b`, and the
value lies in `[0, 1]`. -/
theorem correlation_policy_spec (a b : List ℝ) (hlen : a.length = b.length) :
    (¬(adjacentDiffers a.length a ∧ adjacentDiffers a.length b) →
      CorrelationDivergencePolicy a b = 0) ∧
    ((adjacentDiffers a.length a ∧ adjacentDiffers a.length b) →
      CorrelationDivergencePolicy a b = 0.5 - 0.5 * pearson a b ∧
      0 ≤ CorrelationDivergencePolicy a b ∧ CorrelationDivergencePolicy a b ≤ 1) := by
  constructor
  · intro h
    rw [CorrelationDivergencePolicy, if_neg h]
  · intro h
    have heq : CorrelationDivergencePolicy a b = 0.5 - 0.5 * pearson a b := by
      rw [CorrelationDivergencePolicy, if_pos h, pearson]
      ring
    have hA := corrBelow_pos _ _ h.1
    have hB := corrBelow_pos _ _ h.2
    have hden : 0 < Real.sqrt (corrBelow a.length a) * Real.sqrt (corrBelow a.length b) :=
      mul_pos (Real.sqrt_pos.mpr hA) (Real.sqrt_pos.mpr hB)
    have habs : |corrAbove a b|
        ≤ Real.sqrt (corrBelow a.length a) * Real.sqrt (corrBelow a.length b) := by
      rw [← Real.sqrt_mul_self_eq_abs, ← Real.sqrt_mul (le_of_lt hA)]
      exact Real.sqrt_le_sqrt (corr_above_sq_le a b)
    have hr1 : pearson a b ≤ 1 := by
      rw [pearson, div_le_one hden]
      exact le_trans (le_abs_self _) habs
    have hr2 : -1 ≤ pearson a b := by
      rw [pearson, le_div_iff hden]
      have hng := neg_abs_le (corrAbove a b)
      linarith
    refine ⟨heq, ?_, ?_⟩ <;> rw [heq] <;> linarith

/-- Witness for C6 at `a = [0, 1]`, `b = [1, 0]` (both non-constant). -/
theorem correlation_policy_spec_witness :
    CorrelationDivergencePolicy [0, 1] [1, 0] = 0.5 - 0.5 * pearson [0, 1] [1, 0] ∧
    0 ≤ CorrelationDivergencePolicy [0, 1] [1, 0] ∧
    CorrelationDivergencePolicy [0, 1] [1, 0] ≤ 1 :=
  (correlation_policy_spec [0, 1] [1, 0] rfl).2
    ⟨⟨1, by norm_num, by norm_num, by norm_num [List.getD]⟩,
     ⟨1, by norm_num, by norm_num, by norm_num [List.getD]⟩⟩

/-- The validity condition established by the scanning loop of
`JensonShannonDivergencePolicy` over the first `a.size` positions: no
entry of either vector is negative and each vector has a positive entry
(the code's `a_valid && b_valid` after the loop, with early exit on a
negative entry). -/
def jsValid (a b : List ℝ) : Prop :=
  (∀ i < a.length, 0 ≤ a.getD i 0 ∧ 0 ≤ b.getD i 0) ∧
  (∃ i < a.length, 0 < a.getD i 0) ∧ (∃ i < a.length, 0 < b.getD i 0)

/-- The sum of the first `n` entries of `v` (`a_sum` / `b_sum`,
accumulated over `i < a.size`). -/
noncomputable def jsSum (n : ℕ) (v : List ℝ) : ℝ :=
  ((List.range n).map (fun i => v.getD i 0)).sum

/-- One Kullback–Leibler summand: `p * log (p / m)` when `p > 0`, else
`0` (the code's guarded `js_divergence +=`). -/
noncomputable def jsTerm (p m : ℝ) : ℝ := if 0 < p then p * Real.log (p / m) else 0

open Classical in
/-- `JensonShannonDivergencePolicy::operator()`: `0` when the validity
scan fails; otherwise each vector is normalized by its sum, `m` is the
pointwise average of the normalized vectors, and the result is half the
sum of the two guarded Kullback–Leibler sums. -/
noncomputable def JensonShannonDivergencePolicy (a b : List ℝ) : ℝ :=
  if jsValid a b then
    ((List.range a.length).map (fun i =>
      jsTerm (a.getD i 0 / jsSum a.length a)
        (0.5 * (a.getD i 0 / jsSum a.length a + b.getD i 0 / jsSum a.length b)) +
      jsTerm (b.getD i 0 / jsSum a.length b)
        (0.5 * (a.getD i 0 / jsSum a.length a + b.getD i 0 / jsSum a.length b)))).sum * 0.5
  else 0

/-- The sum of the first `length` entries is the list sum. -/
theorem jsSum_eq_sum (v : List ℝ) : jsSum v.length v = v.sum :=
  congrArg List.sum (map_range_getD v)

/-- `p - m ≤ jsTerm p m` for admissible `p`, `m` (Gibbs' pointwise
bound, via `log x ≤ x - 1`). -/
theorem jsTerm_ge (p m : ℝ) (hp : 0 ≤ p) (hm : 0 ≤ m) (hpm : 0 < p → 0 < m) :
    p - m ≤ jsTerm p m := by
  rw [jsTerm]
  by_cases h : 0 < p
  · rw [if_pos h]
    have hm2 := hpm h
    have hlog : Real.log (m / p) ≤ m / p - 1 := Real.log_le_sub_one_of_pos (div_pos hm2 h)
    have hlog2 : Real.log m - Real.log p ≤ m / p - 1 := by
      rw [← Real.log_div (ne_of_gt hm2) (ne_of_gt h)]
      exact hlog
    have h2 : p * (Real.log m - Real.log p) ≤ p * (m / p - 1) :=
      mul_le_mul_of_nonneg_left hlog2 (le_of_lt h)
    have h3 : p * (m / p - 1) = m - p := by field_simp
    rw [Real.log_div (ne_of_gt h) (ne_of_gt hm2)]
    nlinarith
  · rw [if_neg h]
    push_neg at h
    linarith

/-- Gibbs' inequality in summed form over `range n`. -/
theorem jsTermSum_ge (n : ℕ) (p m : ℕ → ℝ) (hp : ∀ i, 0 ≤ p i) (hm : ∀ i, 0 ≤ m i)
    (hpm : ∀ i, 0 < p i → 0 < m i) :
    (∑ i in Finset.range n, p i) - (∑ i in Finset.range n, m i)
      ≤ ∑ i in Finset.range n, jsTerm (p i) (m i) := by
  rw [← Finset.sum_sub_distrib]
  exact Finset.sum_le_sum (fun i _ => jsTerm_ge _ _ (hp i) (hm i) (hpm i))

/-- **C7**: the Jensen–Shannon policy returns exactly `0` when any entry
of either input is negative or either vector sums to `0`; otherwise each
vector normalizes to sum `1`, and the result is symmetric in `a` and `b`
and non-negative. -/
theorem jenson_shannon_spec (a b : List ℝ) (hlen : a.length = b.length) :
    (((∃ x ∈ a, x < 0) ∨ (∃ x ∈ b, x < 0) ∨ a.sum = 0 ∨ b.sum = 0) →
      JensonShannonDivergencePolicy a b = 0) ∧
    ((∀ x ∈ a, 0 ≤ x) → (∀ x ∈ b, 0 ≤ x) → a.sum ≠ 0 → b.sum ≠ 0 →
      ((List.range a.length).map (fun i => a.getD i 0 / jsSum a.length a)).sum = 1 ∧
      ((List.range a.length).map (fun i => b.getD i 0 / jsSum a.length b)).sum = 1 ∧
      JensonShannonDivergencePolicy a b = JensonShannonDivergencePolicy b a ∧
      0 ≤ JensonShannonDivergencePolicy a b) := by
  constructor
  · intro hcond
    rw [JensonShannonDivergencePolicy, if_neg]
    intro hv
    obtain ⟨hnn, ⟨ia, hia, hpa⟩, ⟨ib, hib, hpb⟩⟩ := hv
    rcases hcond with ⟨x, hx, hxneg⟩ | ⟨x, hx, hxneg⟩ | hs | hs
    · obtain ⟨i, hi, rfl⟩ := List.mem_iff_getElem.mp hx
      have h0 := (hnn i hi).1
      rw [List.getD_eq_getElem a 0 hi] at h0
      linarith
    · obtain ⟨i, hi, rfl⟩ := List.mem_iff_getElem.mp hx
      have hia2 : i < a.length := by omega
      have h0 := (hnn i hia2).2
      rw [List.getD_eq_getElem b 0 hi] at h0
      linarith
    · have h1 : 0 < jsSum a.length a := by
        rw [jsSum, sum_map_range_eq]
        apply Finset.sum_pos'
        · intro k hk
          exact (hnn k (Finset.mem_range.mp hk)).1
        · exact ⟨ia, Finset.mem_range.mpr hia, hpa⟩
      rw [jsSum_eq_sum] at h1
      linarith
    · have h1 : 0 < jsSum a.length b := by
        rw [jsSum, sum_map_range_eq]
        apply Finset.sum_pos'
        · intro k hk
          exact (hnn k (Finset.mem_range.mp hk)).2
        · exact ⟨ib, Finset.mem_range.mpr hib, hpb⟩
      have h2 : jsSum a.length b = b.sum := by
        rw [hlen]
        exact jsSum_eq_sum b
      rw [h2] at h1
      linarith
  · intro hna hnb hsa hsb
    have hgetA : ∀ i, i < a.length → 0 ≤ a.getD i 0 := by
      intro i hi
      rw [List.getD_eq_getElem a 0 hi]
      exact hna _ (List.getElem_mem hi)
    have hgetB : ∀ i, i < a.length → 0 ≤ b.getD i 0 := by
      intro i hi
      have hib : i < b.length := by omega
      rw [List.getD_eq_getElem b 0 hib]
      exact hnb _ (List.getElem_mem hib)
    have hgetA2 : ∀ i, 0 ≤ a.getD i 0 := by
      intro i
      by_cases hi : i < a.length
      · exact hgetA i hi
      · rw [List.getD_eq_default a 0 (by omega)]
    have hgetB2 : ∀ i, 0 ≤ b.getD i 0 := by
      intro i
      by_cases hi : i < b.length
      · exact hgetB i (by omega)
      · rw [List.getD_eq_default b 0 (by omega)]
    have hab : jsSum a.length b = b.sum := by
      rw [hlen]
      exact jsSum_eq_sum b
    have hSa : 0 < jsSum a.length a := by
      have hnn : 0 ≤ jsSum a.length a := by
        rw [jsSum, sum_map_range_eq]
        exact Finset.sum_nonneg (fun i hi => hgetA i (Finset.mem_range.mp hi))
      rcases lt_or_eq_of_le hnn with h | h
      · exact h
      · exact absurd (by rw [← jsSum_eq_sum]; exact h.symm) hsa
    have hSb : 0 < jsSum a.length b := by
      have hnn : 0 ≤ jsSum a.length b := by
        rw [jsSum, sum_map_range_eq]
        exact Finset.sum_nonneg (fun i hi => hgetB i (Finset.mem_range.mp hi))
      rcases lt_or_eq_of_le hnn with h | h
      · exact h
      · exact absurd (by rw [← hab]; exact h.symm) hsb
    have hnormA : ((List.range a.length).map (fun i => a.getD i 0 / jsSum a.length a)).sum
        = 1 := by
      rw [sum_map_range_eq, ← Finset.sum_div,
        show ∑ i in Finset.range a.length, a.getD i 0 = jsSum a.length a from rfl]
      exact div_self (ne_of_gt hSa)
    have hnormB : ((List.range a.length).map (fun i => b.getD i 0 / jsSum a.length b)).sum
        = 1 := by
      rw [sum_map_range_eq, ← Finset.sum_div,
        show ∑ i in Finset.range a.length, b.getD i 0 = jsSum a.length b from rfl]
      exact div_self (ne_of_gt hSb)
    have hexA : ∃ i < a.length, 0 < a.getD i 0 := by
      by_contra hno
      push_neg at hno
      apply hsa
      rw [← jsSum_eq_sum, jsSum, sum_map_range_eq]
      apply Finset.sum_eq_zero
      intro i hi
      have h1 := hgetA i (Finset.mem_range.mp hi)
      have h2 := hno i (Finset.mem_range.mp hi)
      linarith
    have hexB : ∃ i < a.length, 0 < b.getD i 0 := by
      by_contra hno
      push_neg at hno
      apply hsb
      rw [← hab, jsSum, sum_map_range_eq]
      apply Finset.sum_eq_zero
      intro i hi
      have h1 := hgetB i (Finset.mem_range.mp hi)
      have h2 := hno i (Finset.mem_range.mp hi)
      linarith
    have hvalid : jsValid a b := ⟨fun i hi => ⟨hgetA i hi, hgetB i hi⟩, hexA, hexB⟩
    have hvalid2 : jsValid b a := by
      refine ⟨fun i hi => ⟨hgetB i (by omega), hgetA i (by omega)⟩, ?_, ?_⟩
      · obtain ⟨i, hi, hp⟩ := hexB
        exact ⟨i, by omega, hp⟩
      · obtain ⟨i, hi, hp⟩ := hexA
        exact ⟨i, by omega, hp⟩
    have hsym : JensonShannonDivergencePolicy a b = JensonShannonDivergencePolicy b a := by
      rw [JensonShannonDivergencePolicy, JensonShannonDivergencePolicy, if_pos hvalid,
        if_pos hvalid2, ← hlen]
      congr 1
      congr 1
      apply List.map_congr_left
      intro i hi
      rw [show 0.5 * (b.getD i 0 / jsSum a.length b + a.getD i 0 / jsSum a.length a)
          = 0.5 * (a.getD i 0 / jsSum a.length a + b.getD i 0 / jsSum a.length b) from by
        ring]
      exact add_comm _ _
    have hnonneg : 0 ≤ JensonShannonDivergencePolicy a b := by
      rw [JensonShannonDivergencePolicy, if_pos hvalid]
      have hnormA2 : ∑ i in Finset.range a.length, a.getD i 0 / jsSum a.length a = 1 := by
        rw [← sum_map_range_eq]
        exact hnormA
      have hnormB2 : ∑ i in Finset.range a.length, b.getD i 0 / jsSum a.length b = 1 := by
        rw [← sum_map_range_eq]
        exact hnormB
      have hmsum : ∑ i in Finset.range a.length,
          0.5 * (a.getD i 0 / jsSum a.length a + b.getD i 0 / jsSum a.length b) = 1 := by
        rw [← Finset.mul_sum, Finset.sum_add_distrib, hnormA2, hnormB2]
        norm_num
      have hpA : ∀ i, 0 ≤ a.getD i 0 / jsSum a.length a :=
        fun i => div_nonneg (hgetA2 i) (le_of_lt hSa)
      have hpB : ∀ i, 0 ≤ b.getD i 0 / jsSum a.length b :=
        fun i => div_nonneg (hgetB2 i) (le_of_lt hSb)
      have hm : ∀ i, 0 ≤ 0.5 * (a.getD i 0 / jsSum a.length a + b.getD i 0 / jsSum a.length b) :=
        fun i => mul_nonneg (by norm_num) (add_nonneg (hpA i) (hpB i))
      have gibbsA := jsTermSum_ge a.length (fun i => a.getD i 0 / jsSum a.length a)
        (fun i => 0.5 * (a.getD i 0 / jsSum a.length a + b.getD i 0 / jsSum a.length b))
        hpA hm
        (fun i hp => mul_pos (by norm_num) (add_pos_of_pos_of_nonneg hp (hpB i)))
      have gibbsB := jsTermSum_ge a.length (fun i => b.getD i 0 / jsSum a.length b)
        (fun i => 0.5 * (a.getD i 0 / jsSum a.length a + b.getD i 0 / jsSum a.length b))
        hpB hm
        (fun i hp => mul_pos (by norm_num) (add_pos_of_nonneg_of_pos (hpA i) hp))
      rw [hnormA2, hmsum] at gibbsA
      rw [hnormB2, hmsum] at gibbsB
      rw [sum_map_range_eq, Finset.sum_add_distrib]
      nlinarith
    exact ⟨hnormA, hnormB, hsym, hnonneg⟩

/-- Witness for C7 at `a = [1, 0]`, `b = [0, 1]` (both valid
unnormalized histograms). -/
theorem jenson_shannon_spec_witness :
    ((List.range ([(1 : ℝ), 0]).length).map
      (fun i => ([(1 : ℝ), 0]).getD i 0 / jsSum ([(1 : ℝ), 0]).length [(1 : ℝ), 0])).sum = 1 ∧
    ((List.range ([(1 : ℝ), 0]).length).map
      (fun i => ([(0 : ℝ), 1]).getD i 0 / jsSum ([(1 : ℝ), 0]).length [(0 : ℝ), 1])).sum = 1 ∧
    JensonShannonDivergencePolicy [(1 : ℝ), 0] [(0 : ℝ), 1]
      = JensonShannonDivergencePolicy [(0 : ℝ), 1] [(1 : ℝ), 0] ∧
    0 ≤ JensonShannonDivergencePolicy [(1 : ℝ), 0] [(0 : ℝ), 1] :=
  (jenson_shannon_spec [(1 : ℝ), 0] [(0 : ℝ), 1] rfl).2
    (by intro x hx; simp at hx; rcases hx with rfl | rfl <;> norm_num)
    (by intro x hx; simp at hx; rcases hx with rfl | rfl <;> norm_num)
    (by norm_num) (by norm_num)

/-- The implicit C++ integral conversion applied at the constructor
boundary: a signed integral argument converts to `size_t` (64-bit
unsigned) by reduction modulo `2^64`. -/
def toSizeT (n : ℤ) : ℕ := (n % (2 ^ 64 : ℤ)).toNat

/-- `StructuralChange::StructuralChange(size_t num_dim)`: the constructor
only stores `num_dim` in `m_num_dim` — its body is empty and contains no
validation — so any caller argument reaches `m_num_dim` through the
`size_t` conversion and construction always yields an engine. -/
def mkStructuralChange (numDim : ℤ) : ℕ := toSizeT numDim

/-- Counterexample to C9 as stated: constructing with the negative
timescale count `-3` is not rejected; the constructor succeeds and
stores the wrapped unsigned value `2^64 - 3`. -/
theorem construct_negative_counterexample :
    mkStructuralChange (-3) = 18446744073709551613 := by
  simp only [mkStructuralChange, toSizeT]
  omega

/-- Amended C9: the constructor performs no validation and cannot
reject; a negative argument `n` (representable in the conversion range)
wraps to the huge count `n + 2^64`, and construction succeeds with a
positive stored count. -/
theorem construct_no_validation (n : ℤ) (hneg : n < 0) (hrange : -(2 ^ 64) < n) :
    mkStructuralChange n = (n + 2 ^ 64).toNat ∧ 0 < mkStructuralChange n := by
  simp only [mkStructuralChange, toSizeT]
  omega

/-- Witness for the amended C9 at `n = -3`. -/
theorem construct_no_validation_witness :
    mkStructuralChange (-3) = ((-3) + 2 ^ 64).toNat ∧ 0 < mkStructuralChange (-3) :=
  construct_no_validation (-3) (by norm_num) (by norm_num)

end StructuralChange
